import Mathlib

/-!
Verification of the ArbEdge opportunity-distribution core against its
natural-language specification.

The Rust source is shallowly embedded: pure functions become Lean functions,
stateful KV/database interaction becomes explicit state passing, machine
integers become `Nat`/`Int` with explicit bounds where overflow matters, and
fallible code returns `Option`/`Except`.  External primitives that the
repository merely calls (the AES-256-GCM cipher of the `aes_gcm` crate, the
`base64` crate's standard engine, Rust's UTF-8 validation) are modelled
explicitly below; each such model carries a doc comment saying what it stands
for.
-/

namespace ArbEdge

/-- A byte, as stored in Rust `Vec<u8>` buffers. -/
abbrev Byte := Fin 256

/-- Bytewise XOR (`u8 ^ u8` in Rust). -/
def xorB (a b : Byte) : Byte :=
  ⟨a.val ^^^ b.val, by
    have h : a.val ^^^ b.val < 2 ^ 8 :=
      Nat.bitwise_lt (by simp [a.isLt]) (by simp [b.isLt])
    simpa using h⟩

/-! ### Base64 (standard alphabet, canonical decoding)

Model of the `base64` crate's `general_purpose::STANDARD` engine used by both
credential vaults: the standard RFC 4648 alphabet with mandatory `=` padding;
decoding rejects non-alphabet characters, misplaced padding and non-zero
trailing bits, so decoding is canonical (a successful decode's output
re-encodes to exactly the input). -/

def b64Alphabet : List Char :=
  [65, 66, 67, 68, 69, 70, 71, 72, 73, 74, 75, 76, 77, 78, 79, 80, 81, 82,
   83, 84, 85, 86, 87, 88, 89, 90, 97, 98, 99, 100, 101, 102, 103, 104, 105,
   106, 107, 108, 109, 110, 111, 112, 113, 114, 115, 116, 117, 118, 119, 120,
   121, 122, 48, 49, 50, 51, 52, 53, 54, 55, 56, 57, 43, 47].map Char.ofNat

/-- The character encoding a six-bit group. -/
def b64Char (i : Fin 64) : Char :=
  b64Alphabet.getD i.val 'A'

/-- Inverse lookup: the six-bit value of an alphabet character, if any. -/
def b64Index (c : Char) : Option (Fin 64) :=
  (List.finRange 64).find? (fun i => b64Char i = c)

/-- Base64-encode a byte buffer, three bytes per four output characters. -/
def b64Encode : List Byte → List Char
  | [] => []
  | [b0] =>
      [b64Char ⟨b0.val / 4, by omega⟩,
       b64Char ⟨b0.val % 4 * 16, by omega⟩, '=', '=']
  | [b0, b1] =>
      [b64Char ⟨b0.val / 4, by omega⟩,
       b64Char ⟨b0.val % 4 * 16 + b1.val / 16, by omega⟩,
       b64Char ⟨b1.val % 16 * 4, by omega⟩, '=']
  | b0 :: b1 :: b2 :: rest =>
      b64Char ⟨b0.val / 4, by omega⟩ ::
      b64Char ⟨b0.val % 4 * 16 + b1.val / 16, by omega⟩ ::
      b64Char ⟨b1.val % 16 * 4 + b2.val / 64, by omega⟩ ::
      b64Char ⟨b2.val % 64, b2.val.mod_lt (by omega)⟩ ::
      b64Encode rest

/-- Decoding of a single four-character base64 block: the decoded bytes plus
a flag saying whether the block carries padding (and must therefore be the
final block). -/
def blockDec (c0 c1 c2 c3 : Char) : Option (List Byte × Bool) :=
  match b64Index c0, b64Index c1 with
  | some i0, some i1 =>
    if c2 = '=' then
      if c3 = '=' ∧ i1.val % 16 = 0 then
        some ([⟨i0.val * 4 + i1.val / 16, by omega⟩], true)
      else none
    else
      match b64Index c2 with
      | some i2 =>
        if c3 = '=' then
          if i2.val % 4 = 0 then
            some ([⟨i0.val * 4 + i1.val / 16, by omega⟩,
                   ⟨i1.val % 16 * 16 + i2.val / 4, by omega⟩], true)
          else none
        else
          match b64Index c3 with
          | some i3 =>
            some ([⟨i0.val * 4 + i1.val / 16, by omega⟩,
                   ⟨i1.val % 16 * 16 + i2.val / 4, by omega⟩,
                   ⟨i2.val % 4 * 64 + i3.val, by omega⟩], false)
          | none => none
      | none => none
  | _, _ => none

/-- Canonical base64 decoding: `none` on non-alphabet characters, bad padding,
lengths that are not multiples of four, or non-zero trailing bits.  A padded
(final) block is accepted only at the end of the input. -/
def b64Decode : List Char → Option (List Byte)
  | [] => some []
  | c0 :: c1 :: c2 :: c3 :: rest =>
      match blockDec c0 c1 c2 c3 with
      | none => none
      | some (bs, true) => if rest = [] then some bs else none
      | some (bs, false) => (b64Decode rest).map (fun tail => bs ++ tail)
  | _ => none


/-! ### UTF-8 validity

Model of Rust `String::from_utf8`: it succeeds exactly on well-formed UTF-8
byte sequences (RFC 3629 table: no overlong forms, no surrogates, max
U+10FFFF). -/

/-- Continuation byte test (`0x80..=0xBF`). -/
def utf8Cont (b : Byte) : Bool := decide (128 ≤ b.val ∧ b.val ≤ 191)

/-- Whether a byte sequence is well-formed UTF-8. -/
def isValidUtf8 : List Byte → Bool
  | [] => true
  | b :: rest =>
    if b.val ≤ 127 then isValidUtf8 rest
    else if 194 ≤ b.val ∧ b.val ≤ 223 then
      match rest with
      | b1 :: r => utf8Cont b1 && isValidUtf8 r
      | [] => false
    else if b.val = 224 then
      match rest with
      | b1 :: b2 :: r => decide (160 ≤ b1.val ∧ b1.val ≤ 191) && utf8Cont b2 && isValidUtf8 r
      | _ => false
    else if (225 ≤ b.val ∧ b.val ≤ 236) ∨ b.val = 238 ∨ b.val = 239 then
      match rest with
      | b1 :: b2 :: r => utf8Cont b1 && utf8Cont b2 && isValidUtf8 r
      | _ => false
    else if b.val = 237 then
      match rest with
      | b1 :: b2 :: r => decide (128 ≤ b1.val ∧ b1.val ≤ 159) && utf8Cont b2 && isValidUtf8 r
      | _ => false
    else if b.val = 240 then
      match rest with
      | b1 :: b2 :: b3 :: r =>
          decide (144 ≤ b1.val ∧ b1.val ≤ 191) && utf8Cont b2 && utf8Cont b3 && isValidUtf8 r
      | _ => false
    else if 241 ≤ b.val ∧ b.val ≤ 243 then
      match rest with
      | b1 :: b2 :: b3 :: r => utf8Cont b1 && utf8Cont b2 && utf8Cont b3 && isValidUtf8 r
      | _ => false
    else if b.val = 244 then
      match rest with
      | b1 :: b2 :: b3 :: r =>
          decide (128 ≤ b1.val ∧ b1.val ≤ 143) && utf8Cont b2 && utf8Cont b3 && isValidUtf8 r
      | _ => false
    else false

/-! ### Credential vaults

Two encryption implementations exist in the source: the exchange-key vault
(`UserExchangeApiService::encrypt_string` / `decrypt_string` in
`user_exchange_api.rs`, AES-256-GCM with a SHA-256-derived key, 96-bit random
nonce, ciphertext = nonce then AEAD output, base64-encoded) and the AI-key
vault (`AiIntegrationService::encrypt_string` / `decrypt_string` in
`ai_integration.rs`, a repeating-key XOR followed by base64, with no
authentication tag).  Plaintexts and keys are embedded as byte lists (the
UTF-8 bytes of the Rust `&str` arguments; UTF-8 encoding of strings is
injective, so byte-level equality captures string equality). -/

/-- Decryption failure cases named by the spec taxonomy: `Encoding` for
malformed base64 text, `Length` for a buffer shorter than the nonce,
`Integrity` for an AEAD tag-check failure, and `utf8` when the decrypted
bytes are not a valid UTF-8 string (the source maps each onto
`ArbitrageError::parse_error` with a distinct message). -/
inductive VaultErr
  | encoding
  | length
  | integrity
  | utf8
  deriving DecidableEq, Repr

/-- Repeating-key XOR of the AI-key vault: output byte `i` is
`byte XOR key_bytes[i mod key_bytes.len()]`, with the running index threaded
explicitly.  The Rust code panics on an empty key, so theorems assume the key
byte list is nonempty. -/
def xorKeyFrom (kb : List Byte) : Nat → List Byte → List Byte
  | _, [] => []
  | i, b :: rest => xorB b (kb.getD (i % kb.length) 0) :: xorKeyFrom kb (i + 1) rest

/-- The AI-key vault `encrypt_string`: XOR with the repeated key, base64. -/
def aiEncryptString (kb : List Byte) (p : List Byte) : List Char :=
  b64Encode (xorKeyFrom kb 0 p)

/-- The AI-key vault `decrypt_string`: base64-decode (error on malformed
text), XOR with the repeated key, then `String::from_utf8`. -/
def aiDecryptString (kb : List Byte) (s : List Char) : Except VaultErr (List Byte) :=
  match b64Decode s with
  | none => .error .encoding
  | some encBytes =>
      let dec := xorKeyFrom kb 0 encBytes
      if isValidUtf8 dec then .ok dec else .error .utf8

/-- Modelled from the spec: the exchange vault derives its AES-256 key from
the master secret "via a cryptographic hash" (SHA-256 in the source).  The
hash is an external primitive, so the derived key material is abstracted to a
natural number computed from the secret bytes. -/
def deriveKey (secret : List Byte) : Nat := (secret.map Fin.val).sum

/-- Modelled from the spec: one byte of the ideal AEAD authentication tag.
The tag map is injective per position, which realises the spec sentence
"Decryption fails with Integrity if tag check fails" for tampered buffers. -/
def gByte (k : Nat) (b : Byte) : Byte := b + ⟨k % 256, Nat.mod_lt k (by omega)⟩

/-- Modelled from the spec: the ideal AEAD tag over nonce-and-ciphertext. -/
def aeadTag (k : Nat) (inp : List Byte) : List Byte := inp.map (gByte k)

/-- Modelled from the spec: the keystream byte of the ideal AEAD cipher,
determined by key and nonce. -/
def padByte (k : Nat) (nonce : List Byte) : Byte :=
  ⟨(k + (nonce.map Fin.val).sum) % 256, Nat.mod_lt _ (by omega)⟩

/-- Modelled from the spec: ideal AEAD encryption (`Aes256Gcm::encrypt`).
The output is the masked plaintext followed by a tag over nonce-and-body;
like GCM, the output length determines the plaintext length. -/
def aeadEncrypt (k : Nat) (nonce p : List Byte) : List Byte :=
  let body := p.map (fun b => xorB b (padByte k nonce))
  body ++ aeadTag k (nonce ++ body)

/-- Modelled from the spec: ideal AEAD decryption (`Aes256Gcm::decrypt`);
`none` is the tag-check failure that the source maps to a decryption error.
A buffer is accepted exactly when it is an encryption under this key and
nonce. -/
def aeadDecrypt (k : Nat) (nonce ct : List Byte) : Option (List Byte) :=
  let buf := nonce ++ ct
  let n := buf.length
  if 24 ≤ n ∧ n % 2 = 0 then
    let inp := buf.take (n / 2)
    let tag := buf.drop (n / 2)
    if tag = aeadTag k inp then
      some ((inp.drop 12).map (fun b => xorB b (padByte k nonce)))
    else none
  else none

/-- The exchange vault `encrypt_string`: fresh 96-bit nonce (passed here as
the 12-byte argument standing for the `OsRng` draw), AEAD output appended to
the nonce, base64-encoded. -/
def exchEncryptString (k : Nat) (nonce p : List Byte) : List Char :=
  b64Encode (nonce ++ aeadEncrypt k nonce p)

/-- The exchange vault `decrypt_string`: base64-decode, reject buffers
shorter than the 12-byte nonce, split nonce from ciphertext, AEAD-decrypt,
then `String::from_utf8`. -/
def exchDecryptString (k : Nat) (s : List Char) : Except VaultErr (List Byte) :=
  match b64Decode s with
  | none => .error .encoding
  | some data =>
      if data.length < 12 then .error .length
      else
        match aeadDecrypt k (data.take 12) (data.drop 12) with
        | none => .error .integrity
        | some p => if isValidUtf8 p then .ok p else .error .utf8

/-- Modelled from the spec: a buffer the ideal AEAD accepts, i.e. an
encryption (nonce-and-body followed by its tag) under key `k`. -/
def AeadValid (k : Nat) (buf : List Byte) : Prop :=
  ∃ inp, buf = inp ++ aeadTag k inp

/-- Two four-character blocks agreeing in at least three positions (the
shape produced by altering at most one byte of the encoded text). -/
def AgreeExceptOne (c0 c1 c2 c3 d0 d1 d2 d3 : Char) : Prop :=
  (d1 = c1 ∧ d2 = c2 ∧ d3 = c3) ∨ (d0 = c0 ∧ d2 = c2 ∧ d3 = c3) ∨
    (d0 = c0 ∧ d1 = c1 ∧ d3 = c3) ∨ (d0 = c0 ∧ d1 = c1 ∧ d2 = c2)

/-! ### Shared error taxonomy

The source wraps every failure in `ArbitrageError`; only the constructor
kinds and their message strings matter to the claims. -/

/-- Error values (`ArbitrageError` kinds used by the embedded code). -/
inductive ArbErr
  | network (msg : String)
  | telegram (msg : String)
  | parse (msg : String)
  | notFound (msg : String)
  | rateLimit (msg : String)
  | storage (msg : String)
  deriving DecidableEq, Repr

/-! ### Telegram interface (`telegram.rs`) -/

/-- Chat kinds of `ChatType`. -/
inductive ChatType
  | privateChat
  | group
  | superGroup
  | channel
  deriving DecidableEq, Repr

/-- The `ChatContext` extracted from an inbound update. -/
structure ChatContext where
  chatId : String
  chatType : ChatType
  userId : Option String
  isBotAdmin : Bool
  deriving DecidableEq, Repr

/-- `ChatContext::is_group_or_channel`. -/
def ChatContext.isGroupOrChannel (ctx : ChatContext) : Bool :=
  match ctx.chatType with
  | .group | .superGroup | .channel => true
  | .privateChat => false

/-- Telegram service configuration fields used by `send_secure_notification`. -/
structure TelegramConfig where
  botToken : String
  isTestMode : Bool

/-- Outcome of the chat-platform `sendMessage` HTTP call; the network is
external, so the response is supplied as a parameter. -/
inductive HttpOutcome
  | netError (msg : String)
  | badStatus (body : String)
  | apiNotOk (description : String)
  | ok

/-- The fixed group-safe substitution text returned by
`get_group_safe_message` (content abbreviated; only its identity matters). -/
def groupSafeMessage : String :=
  "New trading opportunity available! Check your private chat for details."

/-- Decidable equality for `Except` results. -/
def exceptDecEq {ε α : Type} [DecidableEq ε] [DecidableEq α] :
    DecidableEq (Except ε α)
  | .ok a, .ok b =>
      if h : a = b then .isTrue (by rw [h])
      else .isFalse (fun he => by cases he; exact h rfl)
  | .ok _, .error _ => .isFalse (fun he => by cases he)
  | .error _, .ok _ => .isFalse (fun he => by cases he)
  | .error e, .error f =>
      if h : e = f then .isTrue (by rw [h])
      else .isFalse (fun he => by cases he; exact h rfl)

instance {ε α : Type} [DecidableEq ε] [DecidableEq α] : DecidableEq (Except ε α) :=
  exceptDecEq

/-- Result of `send_secure_notification`: the returned value plus the list of
`sendMessage` payloads (chat id, text) actually issued to the platform. -/
structure SendOutcome where
  result : Except ArbErr Bool
  sendMessageCalls : List (String × String)
  deriving DecidableEq

/-- `TelegramService::send_secure_notification`: trading data is blocked in
group, supergroup and channel contexts before any HTTP call; in test mode no
HTTP call is made; otherwise the (possibly group-safe-substituted) message is
sent. -/
def sendSecureNotification (cfg : TelegramConfig) (message : String)
    (ctx : ChatContext) (isTradingData : Bool) (http : HttpOutcome) : SendOutcome :=
  if isTradingData && ctx.isGroupOrChannel then
    { result := .ok false, sendMessageCalls := [] }
  else if cfg.isTestMode then
    { result := .ok true, sendMessageCalls := [] }
  else
    let finalMessage := if ctx.isGroupOrChannel then groupSafeMessage else message
    let calls := [(ctx.chatId, finalMessage)]
    match http with
    | .netError m => { result := .error (.network m), sendMessageCalls := calls }
    | .badStatus body => { result := .error (.telegram body), sendMessageCalls := calls }
    | .apiNotOk d => { result := .error (.telegram d), sendMessageCalls := calls }
    | .ok => { result := .ok true, sendMessageCalls := calls }

/-- Digit-string to number, `none` unless the characters are all ASCII
digits and nonempty. -/
def digitsToNat : List Char → Option Nat
  | [] => none
  | ds => if ds.all Char.isDigit then
      some (ds.foldl (fun acc c => acc * 10 + (c.toNat - 48)) 0)
    else none

/-- Rust `str::parse::<i64>`: optional sign, decimal digits, 64-bit range. -/
def parseI64 (s : String) : Option Int :=
  match s.toList with
  | '-' :: ds => (digitsToNat ds).bind (fun n =>
      if (n : Int) ≤ 2 ^ 63 then some (-(n : Int)) else none)
  | '+' :: ds => (digitsToNat ds).bind (fun n =>
      if (n : Int) < 2 ^ 63 then some (n : Int) else none)
  | ds => (digitsToNat ds).bind (fun n =>
      if (n : Int) < 2 ^ 63 then some (n : Int) else none)

/-- Rust `str::split_whitespace`: split on whitespace, dropping empties. -/
def splitWhitespace (text : String) : List String :=
  ((text.toList.splitOnP Char.isWhitespace).map List.asString).filter
    (fun w => w ≠ "")

/-- `TelegramService::is_session_exempt_command`. -/
def isSessionExemptCommand (command : String) : Bool :=
  command = "/start" || command = "/help"

/-- Result of `validate_session_by_telegram_id`, supplied as an oracle for
the external session store (the `Ok` value of the call). -/
structure SessionOracle where
  validate : Int → Bool

/-- Observable outcome of `handle_command_with_context`; the per-command
dispatch (the big `match` after the session gate) is abstracted by
`dispatched`, since the claims concern only the gate. -/
inductive CommandResponse
  | sessionRequired
  | invalidUserIdFormat
  | dispatched (isGroup : Bool) (command : String) (args : List String)
  deriving DecidableEq, Repr

/-- What the handler did: its response, whether the session-validation check
was consulted, and which telegram ids had their activity extended before
dispatch. -/
structure HandleResult where
  response : CommandResponse
  sessionChecked : Bool
  activityUpdates : List Int
  deriving DecidableEq, Repr

/-- `TelegramService::handle_command_with_context` up to dispatch: commands
outside the exempt set are session-gated when a session service is wired;
a failed validation returns the session-required message with no activity
update. -/
def handleCommandWithContext (svc : Option SessionOracle) (text userId : String)
    (ctx : ChatContext) : HandleResult :=
  let parts := splitWhitespace text
  let command := parts.headD ""
  let args := parts.tail
  if isSessionExemptCommand command = false then
    match svc with
    | some oracle =>
      match parseI64 userId with
      | none =>
          { response := .invalidUserIdFormat, sessionChecked := false,
            activityUpdates := [] }
      | some telegramId =>
          if oracle.validate telegramId = false then
            { response := .sessionRequired, sessionChecked := true,
              activityUpdates := [] }
          else
            { response := .dispatched ctx.isGroupOrChannel command args,
              sessionChecked := true, activityUpdates := [telegramId] }
    | none =>
        { response := .dispatched ctx.isGroupOrChannel command args,
          sessionChecked := false, activityUpdates := [] }
  else
    { response := .dispatched ctx.isGroupOrChannel command args,
      sessionChecked := false, activityUpdates := [] }

/-! ### RBAC permission check (`check_user_permission`) -/

/-- User roles (`UserRole`). -/
inductive UserRole
  | guest
  | basic
  | premium
  | enterprise
  | superAdmin
  deriving DecidableEq, Repr

/-- The profile fields consulted by the permission check:
`subscription.is_active` and the role computed by `get_user_role`. -/
structure RbacProfile where
  subscriptionIsActive : Bool
  role : UserRole
  deriving DecidableEq, Repr

/-- `CommandPermission`. -/
inductive CommandPermission
  | basicCommands
  | basicOpportunities
  | manualTrading
  | technicalAnalysis
  | aiEnhancedOpportunities
  | automatedTrading
  | advancedAnalytics
  | premiumFeatures
  | systemAdministration
  | userManagement
  | globalConfiguration
  | groupAnalytics
  deriving DecidableEq, Repr

/-- Database lookup `get_user_by_telegram_id`: `none` covers both the
user-not-found and the error outcome (the source treats them alike with
`_ => return false`). -/
structure ProfileOracle where
  getUserByTelegramId : Int → Option RbacProfile

/-- `TelegramService::check_user_permission`. -/
def checkUserPermission (svc : Option ProfileOracle) (userId : String)
    (permission : CommandPermission) : Bool :=
  match svc with
  | none => userId.startsWith "admin_"
  | some oracle =>
    match oracle.getUserByTelegramId ((parseI64 userId).getD 0) with
    | none => false
    | some profile =>
      match permission with
      | .basicCommands | .basicOpportunities => true
      | .manualTrading | .technicalAnalysis | .aiEnhancedOpportunities
      | .automatedTrading | .advancedAnalytics | .premiumFeatures =>
          profile.subscriptionIsActive
      | .systemAdministration | .userManagement | .globalConfiguration
      | .groupAnalytics => profile.role == .superAdmin

/-! ### AI rate limiting (`check_ai_rate_limit`, `ai_intelligence.rs`) -/

/-- One call of `check_ai_rate_limit` for a fixed window key.  The KV state
is the stored counter (`none` when the key is absent; the source stores the
decimal text of the `u32` counter and reads it back with
`parse().unwrap_or(0)`, a bijection on the canonical numerals it writes, so
the state is modelled by the parsed value). -/
def checkAiRateLimit (maxAiCallsPerHour : Nat) (st : Option Nat) :
    Except ArbErr Unit × Option Nat :=
  let currentCount := st.getD 0
  if maxAiCallsPerHour ≤ currentCount then
    (.error (.rateLimit "AI Intelligence rate limit exceeded"), st)
  else
    (.ok (), some (currentCount + 1))

/-- Sequential execution of `k` rate-limit checks within one window,
returning how many were admitted and the final stored counter. -/
def runAiRateLimit (maxAiCallsPerHour : Nat) : Nat → Option Nat → Nat × Option Nat
  | 0, st => (0, st)
  | Nat.succ k, st =>
    match checkAiRateLimit maxAiCallsPerHour st with
    | (.ok _, st2) =>
      let rest := runAiRateLimit maxAiCallsPerHour k st2
      (rest.1 + 1, rest.2)
    | (.error _, st2) => runAiRateLimit maxAiCallsPerHour k st2

/-! ### Market data: mock series, hybrid access and venue parsers
(`ai_intelligence.rs`) -/

/-- Floating-point values carried by price points.  `f64` arithmetic is not
shallowly embeddable, so values are tracked by provenance: a numeric literal
(source constant or parsed input text), or the mock-series formulas
`base * (1 + sin(i * 0.1) * 0.02)` and `1000000 + i * 100000`. -/
inductive FloatVal
  | lit (s : String)
  | mockPrice (base : FloatVal) (i : Nat)
  | mockVolume (i : Nat)
  deriving DecidableEq, Repr

/-- The `MOCK_BASE_PRICES` table. -/
def MOCK_BASE_PRICES : List (String × FloatVal) :=
  [("BTC", .lit "45000.0"), ("ETH", .lit "2500.0"),
   ("SOL", .lit "100.0"), ("ADA", .lit "0.5")]

/-- `PricePoint` (`market_analysis`): timestamp in ms, price, volume, venue
id and trading pair. -/
structure PricePoint where
  timestamp : Nat
  price : FloatVal
  volume : Option FloatVal
  exchangeId : String
  tradingPair : String
  deriving DecidableEq, Repr

/-- Timeframes (only `OneHour` is used by the embedded paths). -/
inductive TimeFrame
  | oneHour
  deriving DecidableEq, Repr

/-- `PriceSeries` (`market_analysis`). -/
structure PriceSeries where
  tradingPair : String
  exchangeId : String
  timeframe : TimeFrame
  dataPoints : List PricePoint
  lastUpdated : Nat
  deriving DecidableEq, Repr

/-- ASCII uppercasing (`str::to_uppercase` on the ASCII symbols in play). -/
def toUpperAscii (s : String) : String :=
  (s.toList.map Char.toUpper).asString

/-- Whether `sub` occurs contiguously inside `l`. -/
def listIsInfixOf (sub : List Char) : List Char → Bool
  | [] => sub.isEmpty
  | c :: t => sub.isPrefixOf (c :: t) || listIsInfixOf sub t

/-- `String::contains` on literal substrings. -/
def containsSubstr (s sub : String) : Bool :=
  listIsInfixOf sub.toList s.toList

/-- `create_mock_price_series`: 24 hourly points ending at `now` (seconds
since epoch, assumed ≥ 86400 so the `u64` subtraction cannot underflow),
venue id `mock`, base price looked up by substring match on the uppercased
symbol with default 1.0. -/
def createMockPriceSeries (symbol : String) (now : Nat) : PriceSeries :=
  let basePrice :=
    ((MOCK_BASE_PRICES.find? (fun tp =>
        containsSubstr (toUpperAscii symbol) tp.1)).map Prod.snd).getD (.lit "1.0")
  let dataPoints := (List.range 24).map (fun i =>
    { timestamp := (now - (24 - i) * 3600) * 1000,
      price := FloatVal.mockPrice basePrice i,
      volume := some (FloatVal.mockVolume i),
      exchangeId := "mock",
      tradingPair := symbol : PricePoint })
  { tradingPair := symbol, exchangeId := "mock", timeframe := .oneHour,
    dataPoints := dataPoints, lastUpdated := now * 1000 }

/-- Inputs of one loop iteration of `fetch_exchange_data_for_positions`:
the position's venue key and symbol together with the outcomes of the three
external tiers (`none` pipeline means no pipeline service is wired). -/
structure PositionFetch where
  exchangeKey : String
  symbol : String
  pipeline : Option (Except ArbErr PriceSeries)
  cache : Except ArbErr PriceSeries
  realApi : Except ArbErr PriceSeries

/-- Tier selection for one position: pipeline, then KV cache, then real
exchange API, then — unconditionally — the mock series. -/
def fetchSeriesForPosition (pos : PositionFetch) (now : Nat) : PriceSeries :=
  match pos.pipeline with
  | some (.ok ps) => ps
  | _ =>
    match pos.cache with
    | .ok ps => ps
    | .error _ =>
      match pos.realApi with
      | .ok ps => ps
      | .error _ => createMockPriceSeries pos.symbol now

/-- `fetch_exchange_data_for_positions`: the per-position hybrid reads (the
`HashMap` is modelled by the insertion list). -/
def fetchExchangeDataForPositions (positions : List PositionFetch) (now : Nat) :
    Except ArbErr (List (String × PriceSeries)) :=
  let exchangeData := positions.map (fun pos =>
    (pos.exchangeKey, fetchSeriesForPosition pos now))
  if exchangeData.isEmpty then
    .error (.notFound "No exchange data available from any source")
  else
    .ok exchangeData

/-- JSON values (`serde_json::Value`); numbers are restricted to the
integers occurring in the kline payloads. -/
inductive Json
  | null
  | bool (b : Bool)
  | num (n : Int)
  | str (s : String)
  | arr (elems : List Json)
  | obj (fields : List (String × Json))

/-- `Value::as_u64`. -/
def Json.asU64 : Json → Option Nat
  | .num n => if 0 ≤ n ∧ n < 2 ^ 64 then some n.toNat else none
  | _ => none

/-- `Value::as_str`. -/
def Json.asStr : Json → Option String
  | .str s => some s
  | _ => none

/-- `Value::as_array`. -/
def Json.asArr : Json → Option (List Json)
  | .arr xs => some xs
  | _ => none

/-- `Value::get` on objects. -/
def Json.getKey : Json → String → Option Json
  | .obj fields, key => (fields.find? (fun kv => kv.1 = key)).map Prod.snd
  | _, _ => none

/-- Rust `str::parse::<u64>`: optional plus sign, digits, 64-bit range. -/
def rustParseU64 (s : String) : Option Nat :=
  let core := match s.toList with
    | '+' :: ds => digitsToNat ds
    | ds => digitsToNat ds
  core.bind (fun n => if n < 2 ^ 64 then some n else none)

/-- Mantissa of a Rust float literal: digits with an optional single dot
(`5`, `5.`, `5.25`, `.25`). -/
def isF64Mantissa (l : List Char) : Bool :=
  match l.splitOnP (fun c => c = '.') with
  | [intPart] => (digitsToNat intPart).isSome
  | [intPart, fracPart] =>
      (((digitsToNat intPart).isSome) && fracPart.all Char.isDigit) ||
        (intPart = [] && ((digitsToNat fracPart).isSome))
  | _ => false

/-- Rust `str::parse::<f64>` acceptance: optional sign, then a decimal
mantissa with optional exponent, or one of the case-insensitive special
forms `inf`, `infinity`, `nan`. -/
def isF64Lit (s : String) : Bool :=
  let core := match s.toList with
    | '+' :: t => t
    | '-' :: t => t
    | t => t
  let lower := core.map Char.toLower
  if lower = "inf".toList || lower = "infinity".toList || lower = "nan".toList then
    true
  else
    match core.splitOnP (fun c => c = 'e' || c = 'E') with
    | [mantissa] => isF64Mantissa mantissa
    | [mantissa, expPart] =>
        isF64Mantissa mantissa &&
          (match expPart with
           | '+' :: ds => (digitsToNat ds).isSome
           | '-' :: ds => (digitsToNat ds).isSome
           | ds => (digitsToNat ds).isSome)
    | _ => false

/-- Successful `parse::<f64>` keeps the literal text as the value's
provenance. -/
def rustParseF64 (s : String) : Option FloatVal :=
  if isF64Lit s then some (.lit s) else none

/-- The rows of a Binance klines payload that parse successfully: arrays of
length ≥ 6 whose entries 0 (u64 ms timestamp), 4 (close) and 5 (volume)
parse; the timestamp is converted to seconds.  The source pushes the three
components onto three lockstep vectors inside one loop, which is exactly a
`filterMap` to triples. -/
def binanceValidRows (klines : List Json) : List (Nat × FloatVal × FloatVal) :=
  klines.filterMap (fun kline =>
    match kline.asArr with
    | some a =>
      if 6 ≤ a.length then
        match (a.getD 0 .null).asU64, ((a.getD 4 .null).asStr.bind rustParseF64),
            ((a.getD 5 .null).asStr.bind rustParseF64) with
        | some ts, some close, some vol => some (ts / 1000, close, vol)
        | _, _, _ => none
      else none
    | none => none)

/-- Rows of a Bybit or OKX payload list: entries 0, 4, 5 are strings parsed
as u64 / f64 / f64. -/
def strKlineValidRows (list : List Json) : List (Nat × FloatVal × FloatVal) :=
  list.filterMap (fun kline =>
    match kline.asArr with
    | some a =>
      if 6 ≤ a.length then
        match ((a.getD 0 .null).asStr.bind rustParseU64),
            ((a.getD 4 .null).asStr.bind rustParseF64),
            ((a.getD 5 .null).asStr.bind rustParseF64) with
        | some ts, some close, some vol => some (ts / 1000, close, vol)
        | _, _, _ => none
      else none
    | none => none)

/-- The `result.list` array of a Bybit V5 kline response (empty when the
path is missing, as in the source's nested `if let`s). -/
def bybitList (response : Json) : List Json :=
  ((response.getKey "result").bind (fun r => (r.getKey "list").bind Json.asArr)).getD []

/-- The `data` array of an OKX candles response. -/
def okxData (response : Json) : List Json :=
  ((response.getKey "data").bind Json.asArr).getD []

/-- Conversion of parsed rows to `PricePoint`s: seconds back to ms, venue id
stamped on every point. -/
def mkPricePoints (rows : List (Nat × FloatVal × FloatVal)) (venue symbol : String) :
    List PricePoint :=
  rows.map (fun r =>
    { timestamp := r.1 * 1000, price := r.2.1, volume := some r.2.2,
      exchangeId := venue, tradingPair := symbol })

/-- `parse_binance_klines`. -/
def parseBinanceKlines (klines : List Json) (symbol : String) (nowMs : Nat) :
    Except ArbErr PriceSeries :=
  let rows := binanceValidRows klines
  if rows.isEmpty then .error (.parse "No valid Binance kline data")
  else
    .ok { tradingPair := symbol, exchangeId := "binance", timeframe := .oneHour,
          dataPoints := mkPricePoints rows "binance" symbol, lastUpdated := nowMs }

/-- `parse_bybit_klines`. -/
def parseBybitKlines (response : Json) (symbol : String) (nowMs : Nat) :
    Except ArbErr PriceSeries :=
  let rows := strKlineValidRows (bybitList response)
  if rows.isEmpty then .error (.parse "No valid Bybit kline data")
  else
    .ok { tradingPair := symbol, exchangeId := "bybit", timeframe := .oneHour,
          dataPoints := mkPricePoints rows "bybit" symbol, lastUpdated := nowMs }

/-- `parse_okx_candles`. -/
def parseOkxCandles (response : Json) (symbol : String) (nowMs : Nat) :
    Except ArbErr PriceSeries :=
  let rows := strKlineValidRows (okxData response)
  if rows.isEmpty then .error (.parse "No valid OKX candle data")
  else
    .ok { tradingPair := symbol, exchangeId := "okx", timeframe := .oneHour,
          dataPoints := mkPricePoints rows "okx" symbol, lastUpdated := nowMs }

/-! ### API-key deletion (`delete_api_key`, `user_exchange_api.rs`) -/

/-- Credential providers (`ApiKeyProvider`); only the exchange variant's
identity matters to deletion. -/
inductive ApiKeyProvider
  | exchange (id : String)
  | openAI
  | anthropic
  | custom
  deriving DecidableEq, Repr

/-- A stored API key (fields beyond the provider are irrelevant here). -/
structure UserApiKey where
  provider : ApiKeyProvider
  deriving DecidableEq, Repr

/-- The profile fields touched by `delete_api_key`. -/
structure StoredUserProfile where
  apiKeys : List UserApiKey
  updatedAt : Nat
  deriving DecidableEq, Repr

/-- Effect of one `delete_api_key` call: its result, the profile writes
issued to the database, and the validation-cache entries cleared. -/
structure DeleteOutcome where
  result : Except ArbErr Unit
  writes : List (String × StoredUserProfile)
  cacheCleared : List (String × String)
  deriving DecidableEq

/-- `UserExchangeApiService::delete_api_key`: load the profile, retain keys
whose provider is not the named exchange, fail with `NotFound` (writing
nothing) when nothing was removed, else persist the updated profile and
clear the cached validation. -/
def deleteApiKey (db : String → Option StoredUserProfile)
    (userId exchangeId : String) (now : Nat) : DeleteOutcome :=
  match db userId with
  | none =>
      { result := .error (.notFound "User not found"), writes := [],
        cacheCleared := [] }
  | some profile =>
    let remaining := profile.apiKeys.filter (fun key =>
      match key.provider with
      | .exchange ex => ex ≠ exchangeId
      | _ => true)
    if remaining.length = profile.apiKeys.length then
      { result := .error (.notFound "API key not found for exchange"),
        writes := [], cacheCleared := [] }
    else
      { result := .ok (),
        writes := [(userId, { apiKeys := remaining, updatedAt := now })],
        cacheCleared := [(userId, exchangeId)] }

/-- Concrete two-point Binance payload with increasing timestamps, used by
the C8 witness. -/
def c8WitnessKlines : List Json :=
  [Json.arr [.num 1000000, .str "0", .str "0", .str "0", .str "1.0",
      .str "2.0"],
   Json.arr [.num 2000000, .str "0", .str "0", .str "0", .str "1.0",
      .str "2.0"]]

/-- The series the Binance parser produces on `c8WitnessKlines`. -/
def c8WitnessSeries : PriceSeries :=
  { tradingPair := "BTCUSDT", exchangeId := "binance", timeframe := .oneHour,
    dataPoints :=
      [{ timestamp := 1000000, price := .lit "1.0",
         volume := some (.lit "2.0"), exchangeId := "binance",
         tradingPair := "BTCUSDT" },
       { timestamp := 2000000, price := .lit "1.0",
         volume := some (.lit "2.0"), exchangeId := "binance",
         tradingPair := "BTCUSDT" }],
    lastUpdated := 99 }

/-! ## Theorems -/

theorem xorB_xorB (a b : Byte) : xorB (xorB a b) b = a := by
  simp only [xorB]
  apply Fin.ext
  simp [Nat.xor_cancel_right]

theorem b64Index_b64Char (i : Fin 64) : b64Index (b64Char i) = some i := by
  revert i; decide

theorem b64Char_of_b64Index {c : Char} {i : Fin 64} (h : b64Index c = some i) :
    b64Char i = c := by
  have := List.find?_some h
  simpa using this

theorem b64Index_inj {c : Char} {i j : Fin 64} (hi : b64Index c = some i)
    (hj : b64Index c = some j) : i = j := by
  rw [hi] at hj; exact (Option.some_inj.mp hj)

theorem b64Index_eq_none_of_pad : b64Index '=' = none := by decide

theorem b64Char_ne_pad (i : Fin 64) : b64Char i ≠ '=' := by
  revert i; decide

theorem blockDec_enc1 (b0 : Byte) :
    blockDec (b64Char ⟨b0.val / 4, by omega⟩) (b64Char ⟨b0.val % 4 * 16, by omega⟩)
      '=' '=' = some ([b0], true) := by
  simp [blockDec, b64Index_b64Char, Nat.mul_mod_left, Fin.ext_iff]
  omega

theorem blockDec_enc2 (b0 b1 : Byte) :
    blockDec (b64Char ⟨b0.val / 4, by omega⟩)
      (b64Char ⟨b0.val % 4 * 16 + b1.val / 16, by omega⟩)
      (b64Char ⟨b1.val % 16 * 4, by omega⟩) '=' = some ([b0, b1], true) := by
  simp only [blockDec, b64Index_b64Char]
  rw [if_neg (b64Char_ne_pad _)]
  simp [Nat.mul_mod_left, Fin.ext_iff]
  constructor <;> omega

theorem blockDec_enc3 (b0 b1 b2 : Byte) :
    blockDec (b64Char ⟨b0.val / 4, by omega⟩)
      (b64Char ⟨b0.val % 4 * 16 + b1.val / 16, by omega⟩)
      (b64Char ⟨b1.val % 16 * 4 + b2.val / 64, by omega⟩)
      (b64Char ⟨b2.val % 64, b2.val.mod_lt (by omega)⟩) =
      some ([b0, b1, b2], false) := by
  simp only [blockDec, b64Index_b64Char]
  rw [if_neg (b64Char_ne_pad _), if_neg (b64Char_ne_pad _)]
  simp [Fin.ext_iff]
  refine ⟨?_, ?_, ?_⟩ <;> omega

theorem b64Decode_b64Encode (b : List Byte) : b64Decode (b64Encode b) = some b := by
  induction b using b64Encode.induct with
  | case1 => rfl
  | case2 b0 => simp [b64Encode, b64Decode, blockDec_enc1]
  | case3 b0 b1 => simp [b64Encode, b64Decode, blockDec_enc2]
  | case4 b0 b1 b2 rest ih => simp [b64Encode, b64Decode, blockDec_enc3, ih]

theorem blockDec_inv {c0 c1 c2 c3 : Char} {bs : List Byte} {fin : Bool}
    (h : blockDec c0 c1 c2 c3 = some (bs, fin)) :
    (fin = true ∧ b64Encode bs = [c0, c1, c2, c3]) ∨
      (fin = false ∧ ∀ tail, b64Encode (bs ++ tail) = c0 :: c1 :: c2 :: c3 :: b64Encode tail) := by
  unfold blockDec at h
  cases h0 : b64Index c0 with
  | none => rw [h0] at h; cases h
  | some i0 =>
  cases h1 : b64Index c1 with
  | none => rw [h0, h1] at h; cases h
  | some i1 =>
  simp only [h0, h1] at h
  have hv0 := i0.isLt
  have hv1 := i1.isLt
  by_cases hc2 : c2 = '='
  · rw [if_pos hc2] at h
    by_cases hcond : c3 = '=' ∧ i1.val % 16 = 0
    · rw [if_pos hcond] at h
      obtain ⟨hc3, hi1⟩ := hcond
      cases h
      subst hc2 hc3
      refine Or.inl ⟨rfl, ?_⟩
      simp only [b64Encode, List.cons.injEq, and_true]
      refine ⟨?_, ?_⟩
      · rw [show (⟨(⟨i0.val * 4 + i1.val / 16, by omega⟩ : Byte).val / 4, by omega⟩ :
            Fin 64) = i0 from by apply Fin.ext; simp only [Fin.val_mk]; omega]
        exact b64Char_of_b64Index h0
      · rw [show (⟨(⟨i0.val * 4 + i1.val / 16, by omega⟩ : Byte).val % 4 * 16, by
            omega⟩ : Fin 64) = i1 from by apply Fin.ext; simp only [Fin.val_mk]; omega]
        exact b64Char_of_b64Index h1
    · rw [if_neg hcond] at h; cases h
  · rw [if_neg hc2] at h
    cases h2 : b64Index c2 with
    | none => rw [h2] at h; cases h
    | some i2 =>
    simp only [h2] at h
    have hv2 := i2.isLt
    by_cases hc3 : c3 = '='
    · rw [if_pos hc3] at h
      by_cases hi2 : i2.val % 4 = 0
      · rw [if_pos hi2] at h
        cases h
        subst hc3
        refine Or.inl ⟨rfl, ?_⟩
        simp only [b64Encode, List.cons.injEq, and_true]
        refine ⟨?_, ?_, ?_⟩
        · rw [show (⟨(⟨i0.val * 4 + i1.val / 16, by omega⟩ : Byte).val / 4, by omega⟩ :
              Fin 64) = i0 from by apply Fin.ext; simp only [Fin.val_mk]; omega]
          exact b64Char_of_b64Index h0
        · rw [show (⟨(⟨i0.val * 4 + i1.val / 16, by omega⟩ : Byte).val % 4 * 16 +
              (⟨i1.val % 16 * 16 + i2.val / 4, by omega⟩ : Byte).val / 16, by omega⟩ :
              Fin 64) = i1 from by apply Fin.ext; simp only [Fin.val_mk]; omega]
          exact b64Char_of_b64Index h1
        · rw [show (⟨(⟨i1.val % 16 * 16 + i2.val / 4, by omega⟩ : Byte).val % 16 * 4, by
              omega⟩ : Fin 64) = i2 from by apply Fin.ext; simp only [Fin.val_mk]; omega]
          exact b64Char_of_b64Index h2
      · rw [if_neg hi2] at h; cases h
    · rw [if_neg hc3] at h
      cases h3 : b64Index c3 with
      | none => rw [h3] at h; cases h
      | some i3 =>
      simp only [h3] at h
      have hv3 := i3.isLt
      cases h
      refine Or.inr ⟨rfl, fun tail => ?_⟩
      simp only [List.cons_append, List.nil_append, b64Encode, List.cons.injEq]
      refine ⟨?_, ?_, ?_, ?_, rfl⟩
      · rw [show (⟨(⟨i0.val * 4 + i1.val / 16, by omega⟩ : Byte).val / 4, by omega⟩ :
            Fin 64) = i0 from by apply Fin.ext; simp only [Fin.val_mk]; omega]
        exact b64Char_of_b64Index h0
      · rw [show (⟨(⟨i0.val * 4 + i1.val / 16, by omega⟩ : Byte).val % 4 * 16 +
            (⟨i1.val % 16 * 16 + i2.val / 4, by omega⟩ : Byte).val / 16, by omega⟩ :
            Fin 64) = i1 from by apply Fin.ext; simp only [Fin.val_mk]; omega]
        exact b64Char_of_b64Index h1
      · rw [show (⟨(⟨i1.val % 16 * 16 + i2.val / 4, by omega⟩ : Byte).val % 16 * 4 +
            (⟨i2.val % 4 * 64 + i3.val, by omega⟩ : Byte).val / 64, by omega⟩ :
            Fin 64) = i2 from by apply Fin.ext; simp only [Fin.val_mk]; omega]
        exact b64Char_of_b64Index h2
      · rw [show (⟨(⟨i2.val % 4 * 64 + i3.val, by omega⟩ : Byte).val % 64, by
            omega⟩ : Fin 64) = i3 from by apply Fin.ext; simp only [Fin.val_mk]; omega]
        exact b64Char_of_b64Index h3

theorem b64Encode_of_b64Decode :
    ∀ (s : List Char) (b : List Byte), b64Decode s = some b → b64Encode b = s
  | [], b, h => by
      simp only [b64Decode, Option.some.injEq] at h
      simp [← h, b64Encode]
  | [c0], b, h => by simp [b64Decode] at h
  | [c0, c1], b, h => by simp [b64Decode] at h
  | [c0, c1, c2], b, h => by simp [b64Decode] at h
  | c0 :: c1 :: c2 :: c3 :: rest, b, h => by
      simp only [b64Decode] at h
      split at h
      · cases h
      · rename_i bs heq
        by_cases hrest : rest = []
        · rw [if_pos hrest] at h
          cases h
          subst hrest
          rcases blockDec_inv heq with ⟨_, henc⟩ | ⟨hff, _⟩
          · exact henc
          · cases hff
        · rw [if_neg hrest] at h; cases h
      · rename_i bs heq
        rcases Option.map_eq_some'.mp h with ⟨tail, htail, hbv⟩
        subst hbv
        rcases blockDec_inv heq with ⟨htt, _⟩ | ⟨_, henc⟩
        · cases htt
        · rw [henc tail, b64Encode_of_b64Decode rest tail htail]

theorem xorKeyFrom_xorKeyFrom (kb : List Byte) (i : Nat) (p : List Byte) :
    xorKeyFrom kb i (xorKeyFrom kb i p) = p := by
  induction p generalizing i with
  | nil => rfl
  | cons b rest ih => simp only [xorKeyFrom, xorB_xorB, ih]

theorem aeadDecrypt_aeadEncrypt (k : Nat) (nonce p : List Byte)
    (hn : nonce.length = 12) :
    aeadDecrypt k nonce (aeadEncrypt k nonce p) = some p := by
  simp only [aeadEncrypt, aeadDecrypt]
  rw [← List.append_assoc]
  have hlen : ((nonce ++ p.map (fun b => xorB b (padByte k nonce))) ++
      aeadTag k (nonce ++ p.map (fun b => xorB b (padByte k nonce)))).length =
      2 * (12 + p.length) := by
    simp [aeadTag, hn]
    try omega
  rw [if_pos (by omega)]
  have hhalf : ((nonce ++ p.map (fun b => xorB b (padByte k nonce))) ++
      aeadTag k (nonce ++ p.map (fun b => xorB b (padByte k nonce)))).length / 2 =
      (nonce ++ p.map (fun b => xorB b (padByte k nonce))).length := by
    rw [hlen]
    simp [hn]
    try omega
  rw [hhalf, List.take_left, List.drop_left, if_pos rfl]
  rw [List.drop_left' hn, List.map_map]
  rw [show ((fun b => xorB b (padByte k nonce)) ∘ fun b => xorB b (padByte k nonce)) = id
      from funext (fun b => xorB_xorB b (padByte k nonce))]
  rw [List.map_id]

theorem exchDecryptString_exchEncryptString (k : Nat) (nonce p : List Byte)
    (hn : nonce.length = 12) (hp : isValidUtf8 p = true) :
    exchDecryptString k (exchEncryptString k nonce p) = .ok p := by
  simp only [exchEncryptString, exchDecryptString, b64Decode_b64Encode]
  have hlen : (nonce ++ aeadEncrypt k nonce p).length = 24 + 2 * p.length := by
    simp [aeadEncrypt, aeadTag, hn]
    try omega
  rw [if_neg (by omega)]
  rw [List.take_left' hn, List.drop_left' hn, aeadDecrypt_aeadEncrypt k nonce p hn]
  simp [hp]

theorem aiDecryptString_aiEncryptString (kb p : List Byte)
    (_hk : kb ≠ []) (hp : isValidUtf8 p = true) :
    aiDecryptString kb (aiEncryptString kb p) = .ok p := by
  simp [aiEncryptString, aiDecryptString, b64Decode_b64Encode,
    xorKeyFrom_xorKeyFrom, hp]

theorem gByte_injective (k : Nat) : Function.Injective (gByte k) := by
  intro a b h
  simpa [gByte] using add_left_injective _ h

theorem aead_valid_length (k : Nat) {b : List Byte} (h : AeadValid k b) :
    b.length % 2 = 0 := by
  obtain ⟨inp, rfl⟩ := h
  simp [aeadTag]
  omega

theorem aead_valid_eq_of_window (k : Nat) (b b' u v v' w : List Byte)
    (hb : AeadValid k b) (hb' : AeadValid k b')
    (hdb : b = u ++ v ++ w) (hdb' : b' = u ++ v' ++ w)
    (hv3 : v.length ≤ 3) (hvv : v'.length = v.length)
    (h24 : 24 ≤ b.length) : b = b' := by
  obtain ⟨inp, hinp⟩ := hb
  obtain ⟨inp', hinp'⟩ := hb'
  have hblen : b.length = 2 * inp.length := by simp [hinp, aeadTag]; omega
  have hblen' : b'.length = 2 * inp'.length := by simp [hinp', aeadTag]; omega
  have hlen : b'.length = b.length := by
    rw [hdb, hdb']
    simp [hvv]
  have hil : inp'.length = inp.length := by omega
  have houtside : ∀ j, j < u.length ∨ u.length + v.length ≤ j → b[j]? = b'[j]? := by
    intro j hj
    rw [hdb, hdb', List.append_assoc, List.append_assoc]
    rcases hj with hj | hj
    · rw [List.getElem?_append_left hj, List.getElem?_append_left hj]
    · rw [List.getElem?_append_right (by omega), List.getElem?_append_right (by omega),
        List.getElem?_append_right (by omega), List.getElem?_append_right (by omega)]
      rw [hvv]
  have hinpeq : inp = inp' := by
    by_contra hne
    have hx : ∃ p : Nat, inp[p]? ≠ inp'[p]? := by
      by_contra hall
      push_neg at hall
      exact hne (List.ext_getElem? hall)
    obtain ⟨p, hp⟩ := hx
    have hplt : p < inp.length := by
      by_contra hge
      push_neg at hge
      rw [List.getElem?_eq_none hge, List.getElem?_eq_none (by omega)] at hp
      exact hp rfl
    have hbp : b[p]? = inp[p]? := by
      rw [hinp, List.getElem?_append_left hplt]
    have hbp' : b'[p]? = inp'[p]? := by
      rw [hinp', List.getElem?_append_left (by omega)]
    have hwin1 : u.length ≤ p ∧ p < u.length + v.length := by
      by_contra hcon
      have : b[p]? = b'[p]? := houtside p (by omega)
      rw [hbp, hbp'] at this
      exact hp this
    have hbt : b[inp.length + p]? = (inp[p]?).map (gByte k) := by
      rw [hinp, List.getElem?_append_right (by omega)]
      simp [aeadTag]
    have hbt' : b'[inp.length + p]? = (inp'[p]?).map (gByte k) := by
      rw [hinp', List.getElem?_append_right (by omega), hil]
      simp [aeadTag]
    have htagne : b[inp.length + p]? ≠ b'[inp.length + p]? := by
      rw [hbt, hbt']
      intro heq
      exact hp (Option.map_injective (gByte_injective k) heq)
    have hwin2 : u.length ≤ inp.length + p ∧ inp.length + p < u.length + v.length := by
      by_contra hcon
      exact htagne (houtside _ (by omega))
    omega
  rw [hinp, hinp', hinpeq]

theorem blockDec_shape {c0 c1 c2 c3 : Char} {bs : List Byte} {fin : Bool}
    (h : blockDec c0 c1 c2 c3 = some (bs, fin)) :
    (bs.length = 1 ∧ fin = true) ∨ (bs.length = 2 ∧ fin = true) ∨
      (bs.length = 3 ∧ fin = false) := by
  unfold blockDec at h
  cases h0 : b64Index c0 with
  | none => rw [h0] at h; cases h
  | some i0 =>
  cases h1 : b64Index c1 with
  | none => rw [h0, h1] at h; cases h
  | some i1 =>
  simp only [h0, h1] at h
  by_cases hc2 : c2 = '='
  · rw [if_pos hc2] at h
    by_cases hcond : c3 = '=' ∧ i1.val % 16 = 0
    · rw [if_pos hcond] at h
      cases h
      simp
    · rw [if_neg hcond] at h; cases h
  · rw [if_neg hc2] at h
    cases h2 : b64Index c2 with
    | none => rw [h2] at h; cases h
    | some i2 =>
    simp only [h2] at h
    by_cases hc3 : c3 = '='
    · rw [if_pos hc3] at h
      by_cases hi2 : i2.val % 4 = 0
      · rw [if_pos hi2] at h
        cases h
        simp
      · rw [if_neg hi2] at h; cases h
    · rw [if_neg hc3] at h
      cases h3 : b64Index c3 with
      | none => rw [h3] at h; cases h
      | some i3 =>
      rw [h3] at h
      cases h
      simp

theorem blockDec_len1_pad {c0 c1 c2 c3 : Char} {bs : List Byte} {fin : Bool}
    (h : blockDec c0 c1 c2 c3 = some (bs, fin)) (hl : bs.length = 1) :
    c2 = '=' ∧ c3 = '=' := by
  unfold blockDec at h
  cases h0 : b64Index c0 with
  | none => rw [h0] at h; cases h
  | some i0 =>
  cases h1 : b64Index c1 with
  | none => rw [h0, h1] at h; cases h
  | some i1 =>
  simp only [h0, h1] at h
  by_cases hc2 : c2 = '='
  · rw [if_pos hc2] at h
    by_cases hcond : c3 = '=' ∧ i1.val % 16 = 0
    · exact ⟨hc2, hcond.1⟩
    · rw [if_neg hcond] at h; cases h
  · rw [if_neg hc2] at h
    cases h2 : b64Index c2 with
    | none => rw [h2] at h; cases h
    | some i2 =>
    simp only [h2] at h
    by_cases hc3 : c3 = '='
    · rw [if_pos hc3] at h
      by_cases hi2 : i2.val % 4 = 0
      · rw [if_pos hi2] at h
        cases h
        cases hl
      · rw [if_neg hi2] at h; cases h
    · rw [if_neg hc3] at h
      cases h3 : b64Index c3 with
      | none => rw [h3] at h; cases h
      | some i3 =>
      simp only [h3] at h
      cases h
      cases hl

theorem blockDec_len3_nopad {c0 c1 c2 c3 : Char} {bs : List Byte} {fin : Bool}
    (h : blockDec c0 c1 c2 c3 = some (bs, fin)) (hl : bs.length = 3) :
    c2 ≠ '=' ∧ c3 ≠ '=' := by
  unfold blockDec at h
  cases h0 : b64Index c0 with
  | none => rw [h0] at h; cases h
  | some i0 =>
  cases h1 : b64Index c1 with
  | none => rw [h0, h1] at h; cases h
  | some i1 =>
  simp only [h0, h1] at h
  by_cases hc2 : c2 = '='
  · rw [if_pos hc2] at h
    by_cases hcond : c3 = '=' ∧ i1.val % 16 = 0
    · rw [if_pos hcond] at h
      cases h
      cases hl
    · rw [if_neg hcond] at h; cases h
  · rw [if_neg hc2] at h
    cases h2 : b64Index c2 with
    | none => rw [h2] at h; cases h
    | some i2 =>
    simp only [h2] at h
    by_cases hc3 : c3 = '='
    · rw [if_pos hc3] at h
      by_cases hi2 : i2.val % 4 = 0
      · rw [if_pos hi2] at h
        cases h
        cases hl
      · rw [if_neg hi2] at h; cases h
    · rw [if_neg hc3] at h
      exact ⟨hc2, hc3⟩

theorem blockDec_set_len {c0 c1 c2 c3 d0 d1 d2 d3 : Char} {bs bs' : List Byte}
    {f f' : Bool}
    (h : blockDec c0 c1 c2 c3 = some (bs, f))
    (h' : blockDec d0 d1 d2 d3 = some (bs', f'))
    (hagree : AgreeExceptOne c0 c1 c2 c3 d0 d1 d2 d3) :
    bs.length ≤ bs'.length + 1 ∧ bs'.length ≤ bs.length + 1 := by
  rcases blockDec_shape h with ⟨hL, _⟩ | ⟨hL, _⟩ | ⟨hL, _⟩ <;>
    rcases blockDec_shape h' with ⟨hM, _⟩ | ⟨hM, _⟩ | ⟨hM, _⟩ <;>
      try exact ⟨by omega, by omega⟩
  · obtain ⟨hc2, hc3⟩ := blockDec_len1_pad h hL
    obtain ⟨hd2, hd3⟩ := blockDec_len3_nopad h' hM
    rcases hagree with ⟨_, h2, _⟩ | ⟨_, h2, _⟩ | ⟨_, _, h3⟩ | ⟨_, _, h2⟩
    · exact absurd (h2.trans hc2) hd2
    · exact absurd (h2.trans hc2) hd2
    · exact absurd (h3.trans hc3) hd3
    · exact absurd (h2.trans hc2) hd2
  · obtain ⟨hc2, hc3⟩ := blockDec_len3_nopad h hL
    obtain ⟨hd2, hd3⟩ := blockDec_len1_pad h' hM
    rcases hagree with ⟨_, h2, _⟩ | ⟨_, h2, _⟩ | ⟨_, _, h3⟩ | ⟨_, _, h2⟩
    · exact absurd (h2.symm.trans hd2) hc2
    · exact absurd (h2.symm.trans hd2) hc2
    · exact absurd (h3.symm.trans hd3) hc3
    · exact absurd (h2.symm.trans hd2) hc2

theorem b64_block_pair_case {c0 c1 c2 c3 d0 d1 d2 d3 : Char} {bs bs' : List Byte}
    {f f' : Bool}
    (h : blockDec c0 c1 c2 c3 = some (bs, f))
    (h' : blockDec d0 d1 d2 d3 = some (bs', f'))
    (hagree : AgreeExceptOne c0 c1 c2 c3 d0 d1 d2 d3) :
    (∃ u v v' w, bs = u ++ v ++ w ∧ bs' = u ++ v' ++ w ∧ v.length ≤ 3 ∧
        v'.length = v.length)
    ∨ bs'.length = bs.length + 1 ∨ bs.length = bs'.length + 1 := by
  obtain ⟨hle1, hle2⟩ := blockDec_set_len h h' hagree
  rcases Nat.lt_trichotomy bs.length bs'.length with hlt | heqL | hgt
  · right; left; omega
  · left
    refine ⟨[], bs, bs', [], by simp, by simp, ?_, heqL.symm⟩
    rcases blockDec_shape h with ⟨hL, _⟩ | ⟨hL, _⟩ | ⟨hL, _⟩ <;> omega
  · right; right; omega

theorem b64Decode_headChange {c0 c1 c2 c3 d0 d1 d2 d3 : Char} {rest : List Char}
    {b b' : List Byte}
    (hd : b64Decode (c0 :: c1 :: c2 :: c3 :: rest) = some b)
    (hd' : b64Decode (d0 :: d1 :: d2 :: d3 :: rest) = some b')
    (hagree : AgreeExceptOne c0 c1 c2 c3 d0 d1 d2 d3) :
    (∃ u v v' w, b = u ++ v ++ w ∧ b' = u ++ v' ++ w ∧ v.length ≤ 3 ∧
        v'.length = v.length)
    ∨ b'.length = b.length + 1 ∨ b.length = b'.length + 1 := by
  simp only [b64Decode] at hd hd'
  split at hd
  · cases hd
  · rename_i bs heq
    by_cases hrest : rest = []
    · rw [if_pos hrest] at hd
      cases hd
      subst hrest
      split at hd'
      · cases hd'
      · rename_i bs2 heq2
        rw [if_pos rfl] at hd'
        cases hd'
        exact b64_block_pair_case heq heq2 hagree
      · rename_i bs2 heq2
        simp only [b64Decode, Option.map_some] at hd'
        cases hd'
        have := b64_block_pair_case heq heq2 hagree
        simpa using this
    · rw [if_neg hrest] at hd; cases hd
  · rename_i bs heq
    rcases Option.map_eq_some'.mp hd with ⟨tail, htail, rfl⟩
    split at hd'
    · cases hd'
    · rename_i bs2 heq2
      by_cases hrest : rest = []
      · rw [if_pos hrest] at hd'
        cases hd'
        subst hrest
        simp only [b64Decode, Option.some.injEq] at htail
        subst htail
        have := b64_block_pair_case heq heq2 hagree
        simpa using this
      · rw [if_neg hrest] at hd'; cases hd'
    · rename_i bs2 heq2
      rcases Option.map_eq_some'.mp hd' with ⟨tail2, htail2, rfl⟩
      rw [htail] at htail2
      cases htail2
      rcases blockDec_shape heq with ⟨hL, hf⟩ | ⟨hL, hf⟩ | ⟨hL, hf⟩ <;> try cases hf
      rcases blockDec_shape heq2 with ⟨hM, hf2⟩ | ⟨hM, hf2⟩ | ⟨hM, hf2⟩ <;> try cases hf2
      left
      exact ⟨[], bs, bs2, tail, by simp, by simp, by omega, by omega⟩

theorem b64Decode_set :
    ∀ (s : List Char) (i : Nat) (c : Char) {b b' : List Byte},
      b64Decode s = some b → b64Decode (s.set i c) = some b' →
      (∃ u v v' w, b = u ++ v ++ w ∧ b' = u ++ v' ++ w ∧ v.length ≤ 3 ∧
          v'.length = v.length)
      ∨ b'.length = b.length + 1 ∨ b.length = b'.length + 1
  | [], i, c, b, b', hd, hd' => by
      simp only [List.set_nil] at hd'
      simp only [b64Decode, Option.some.injEq] at hd hd'
      subst hd hd'
      exact Or.inl ⟨[], [], [], [], by simp, by simp, by simp, by simp⟩
  | [c0], i, c, b, b', hd, hd' => by simp [b64Decode] at hd
  | [c0, c1], i, c, b, b', hd, hd' => by simp [b64Decode] at hd
  | [c0, c1, c2], i, c, b, b', hd, hd' => by simp [b64Decode] at hd
  | c0 :: c1 :: c2 :: c3 :: rest, i, c, b, b', hd, hd' => by
      rcases i with _ | _ | _ | _ | i
      · rw [List.set_cons_zero] at hd'
        exact b64Decode_headChange hd hd' (Or.inl ⟨rfl, rfl, rfl⟩)
      · rw [List.set_cons_succ, List.set_cons_zero] at hd'
        exact b64Decode_headChange hd hd' (Or.inr (Or.inl ⟨rfl, rfl, rfl⟩))
      · rw [List.set_cons_succ, List.set_cons_succ, List.set_cons_zero] at hd'
        exact b64Decode_headChange hd hd' (Or.inr (Or.inr (Or.inl ⟨rfl, rfl, rfl⟩)))
      · rw [List.set_cons_succ, List.set_cons_succ, List.set_cons_succ,
          List.set_cons_zero] at hd'
        exact b64Decode_headChange hd hd' (Or.inr (Or.inr (Or.inr ⟨rfl, rfl, rfl⟩)))
      · rw [List.set_cons_succ, List.set_cons_succ, List.set_cons_succ,
          List.set_cons_succ] at hd'
        simp only [b64Decode] at hd hd'
        split at hd
        · cases hd
        · rename_i bs heq
          by_cases hrest : rest = []
          · rw [if_pos hrest] at hd
            cases hd
            subst hrest
            simp only [List.set_nil] at hd'
            simp only [heq, if_pos rfl, if_true, Option.some.injEq] at hd'
            subst hd'
            exact Or.inl ⟨[], [], [], b, by simp, by simp, by simp, by simp⟩
          · rw [if_neg hrest] at hd; cases hd
        · rename_i bs heq
          rcases Option.map_eq_some'.mp hd with ⟨tail, htail, rfl⟩
          simp only [heq] at hd'
          rcases Option.map_eq_some'.mp hd' with ⟨tail2, htail2, rfl⟩
          rcases b64Decode_set rest i c htail htail2 with
            ⟨u, v, v', w, h1, h2, h3, h4⟩ | h1 | h1
          · refine Or.inl ⟨bs ++ u, v, v', w, ?_, ?_, h3, h4⟩
            · rw [h1]; simp
            · rw [h2]; simp
          · right; left; simp [h1]; omega
          · right; right; simp [h1]; omega

theorem aeadDecrypt_none_of_odd {k : Nat} {nonce ct : List Byte}
    (hodd : (nonce ++ ct).length % 2 = 1) : aeadDecrypt k nonce ct = none := by
  simp only [aeadDecrypt]
  rw [if_neg (by omega)]

theorem aeadDecrypt_some_valid {k : Nat} {nonce ct q : List Byte}
    (h : aeadDecrypt k nonce ct = some q) : AeadValid k (nonce ++ ct) := by
  simp only [aeadDecrypt] at h
  by_cases hcond : 24 ≤ (nonce ++ ct).length ∧ (nonce ++ ct).length % 2 = 0
  · rw [if_pos hcond] at h
    by_cases htag : (nonce ++ ct).drop ((nonce ++ ct).length / 2) =
        aeadTag k ((nonce ++ ct).take ((nonce ++ ct).length / 2))
    · refine ⟨(nonce ++ ct).take ((nonce ++ ct).length / 2), ?_⟩
      conv_lhs => rw [← List.take_append_drop ((nonce ++ ct).length / 2) (nonce ++ ct)]
      rw [htag]
    · rw [if_neg htag] at h; cases h
  · rw [if_neg hcond] at h; cases h

/-- C1 (amended, exchange vault): altering any single character of the
base64-encoded ciphertext produced by the exchange-key vault makes
`decrypt_string` fail with one of the decryption errors; no tampered text
decrypts successfully. -/
theorem C1_amended_exchange_tamper_rejected (k : Nat) (nonce p : List Byte)
    (i : Nat) (c : Char) (hn : nonce.length = 12)
    (hi : i < (exchEncryptString k nonce p).length)
    (hc : (exchEncryptString k nonce p).get ⟨i, hi⟩ ≠ c) :
    ∃ e, exchDecryptString k ((exchEncryptString k nonce p).set i c) = .error e := by
  have hdec : b64Decode (exchEncryptString k nonce p) =
      some (nonce ++ aeadEncrypt k nonce p) := by
    rw [exchEncryptString]
    exact b64Decode_b64Encode _
  have hdlen : (nonce ++ aeadEncrypt k nonce p).length = 24 + 2 * p.length := by
    simp [aeadEncrypt, aeadTag, hn]
    omega
  have hvalid : AeadValid k (nonce ++ aeadEncrypt k nonce p) :=
    ⟨nonce ++ p.map (fun b => xorB b (padByte k nonce)), by
      simp [aeadEncrypt, aeadTag]⟩
  have hsne : (exchEncryptString k nonce p).set i c ≠ exchEncryptString k nonce p := by
    intro he
    apply hc
    have hgi : ((exchEncryptString k nonce p).set i c)[i]? = some c :=
      List.getElem?_set_self hi
    have hgi0 : (exchEncryptString k nonce p)[i]? =
        some ((exchEncryptString k nonce p).get ⟨i, hi⟩) := by
      simp [List.get_eq_getElem, List.getElem?_eq_getElem hi]
    rw [he, hgi0] at hgi
    exact Option.some_inj.mp hgi
  cases hdc : b64Decode ((exchEncryptString k nonce p).set i c) with
  | none => exact ⟨.encoding, by simp [exchDecryptString, hdc]⟩
  | some b2 =>
    rcases b64Decode_set _ i c hdec hdc with ⟨u, v, v2, w, h1, h2, h3, h4⟩ | h1 | h1
    · have hlen2 : b2.length = (nonce ++ aeadEncrypt k nonce p).length := by
        rw [h1, h2]
        simp [h4]
      refine ⟨.integrity, ?_⟩
      simp only [exchDecryptString, hdc]
      rw [if_neg (by omega)]
      cases haead : aeadDecrypt k (b2.take 12) (b2.drop 12) with
      | none => rfl
      | some q =>
        exfalso
        have hval2 : AeadValid k b2 := by
          have hv := aeadDecrypt_some_valid haead
          rwa [List.take_append_drop] at hv
        have hbeq : nonce ++ aeadEncrypt k nonce p = b2 :=
          aead_valid_eq_of_window k _ b2 u v v2 w hvalid hval2 h1 h2 h3 h4 (by omega)
        apply hsne
        have e1 := b64Encode_of_b64Decode _ _ hdc
        have e2 := b64Encode_of_b64Decode _ _ hdec
        rw [← e1, ← hbeq, e2]
    · refine ⟨.integrity, ?_⟩
      simp only [exchDecryptString, hdc]
      rw [if_neg (by omega)]
      rw [aeadDecrypt_none_of_odd (by rw [List.take_append_drop]; omega)]
    · refine ⟨.integrity, ?_⟩
      simp only [exchDecryptString, hdc]
      rw [if_neg (by omega)]
      rw [aeadDecrypt_none_of_odd (by rw [List.take_append_drop]; omega)]

/-- C1 (counterexample): the claim asserts tamper detection for both
credential-encryption implementations, but the AI-key vault's repeating-key
XOR has no authentication tag: with key byte `107` and plaintext bytes
`[65, 65]`, the encoder yields the text `Kio=`; altering its first byte to
`L` still decrypts successfully — to different plaintext bytes `[69, 65]` —
instead of failing with an integrity error. -/
theorem C1_counterexample_ai_tamper_accepted :
    aiEncryptString [107] [65, 65] = "Kio=".toList ∧
    aiDecryptString [107] ("Kio=".toList.set 0 'L') = .ok [69, 65] ∧
    ([69, 65] : List Byte) ≠ [65, 65] := by
  refine ⟨by decide, by rfl, by decide⟩

/-- C1 (witness): a concrete tampered exchange-vault ciphertext is rejected:
key 7, the all-zero 12-byte nonce, plaintext byte `[65]`, first encoded
character replaced by `B`. -/
theorem C1_amended_witness :
    ∃ e, exchDecryptString 7
      ((exchEncryptString 7 (List.replicate 12 0) [65]).set 0 'B') = .error e :=
  C1_amended_exchange_tamper_rejected 7 (List.replicate 12 0) [65] 0 'B'
    (by decide) (by decide) (by decide)

/-- C6: decrypting the ciphertext produced by encrypting a plaintext under
the same vault key returns exactly that plaintext, for both the exchange-key
vault and the AI-key vault. -/
theorem C6_vault_roundtrip (k : Nat) (nonce p kb : List Byte)
    (hn : nonce.length = 12) (hk : kb ≠ []) (hp : isValidUtf8 p = true) :
    exchDecryptString k (exchEncryptString k nonce p) = .ok p ∧
    aiDecryptString kb (aiEncryptString kb p) = .ok p :=
  ⟨exchDecryptString_exchEncryptString k nonce p hn hp,
   aiDecryptString_aiEncryptString kb p hk hp⟩

/-- C6 (witness): the round trip at concrete inputs for both vaults. -/
theorem C6_vault_roundtrip_witness :
    exchDecryptString 7 (exchEncryptString 7 (List.replicate 12 0) [65]) = .ok [65] ∧
    aiDecryptString [107] (aiEncryptString [107] [65]) = .ok [65] :=
  C6_vault_roundtrip 7 (List.replicate 12 0) [65] [107] (by decide) (by decide)
    (by decide)

/-- C2 (counterexample): with no session service wired, the non-exempt
command `/balance` is dispatched without any session-validation check, so
the clause "only exempt commands skip the validation" fails on the code. -/
theorem C2_counterexample_no_service_skips_validation :
    isSessionExemptCommand "/balance" = false ∧
    handleCommandWithContext none "/balance" "42"
        ⟨"42", .privateChat, some "42", false⟩ =
      { response := .dispatched false "/balance" [], sessionChecked := false,
        activityUpdates := [] } :=
  ⟨rfl, rfl⟩

/-- C2 (amended): when a session service is wired, every command outside the
exempt set `/start`, `/help` is session-gated — a false validation returns
the session-required response with no activity update, and the check is
consulted for exactly the non-exempt commands (with an unparseable sender id
the handler returns an error response without validating); when no session
service is wired, validation is skipped for every command. -/
theorem C2_amended_session_gate (oracle : SessionOracle) (text userId : String)
    (ctx : ChatContext) (telegramId : Int) :
    (isSessionExemptCommand ((splitWhitespace text).headD "") = false →
      parseI64 userId = some telegramId →
      oracle.validate telegramId = false →
      handleCommandWithContext (some oracle) text userId ctx =
        { response := .sessionRequired, sessionChecked := true,
          activityUpdates := [] }) ∧
    (isSessionExemptCommand ((splitWhitespace text).headD "") = false →
      parseI64 userId = some telegramId →
      (handleCommandWithContext (some oracle) text userId ctx).sessionChecked =
        true) ∧
    (isSessionExemptCommand ((splitWhitespace text).headD "") = true →
      (handleCommandWithContext (some oracle) text userId ctx).sessionChecked =
        false) ∧
    (handleCommandWithContext none text userId ctx).sessionChecked = false := by
  refine ⟨?_, ?_, ?_, ?_⟩
  · intro h1 h2 h3
    simp only [List.headD_eq_head?_getD] at h1
    simp [handleCommandWithContext, h1, h2, h3]
  · intro h1 h2
    simp only [List.headD_eq_head?_getD] at h1
    by_cases h3 : oracle.validate telegramId = false <;>
      simp [handleCommandWithContext, h1, h2, h3]
  · intro h1
    simp only [List.headD_eq_head?_getD] at h1
    simp [handleCommandWithContext, h1]
  · by_cases h1 : isSessionExemptCommand ((splitWhitespace text).headD "") = false <;>
      (simp only [List.headD_eq_head?_getD] at h1; simp [handleCommandWithContext, h1])

/-- C2 (witness): the gate at a concrete rejected command. -/
theorem C2_amended_witness :
    handleCommandWithContext (some ⟨fun _ => false⟩) "/balance" "42"
        ⟨"42", .privateChat, some "42", false⟩ =
      { response := .sessionRequired, sessionChecked := true,
        activityUpdates := [] } :=
  (C2_amended_session_gate ⟨fun _ => false⟩ "/balance" "42"
    ⟨"42", .privateChat, some "42", false⟩ 42).1 (by decide) (by decide) rfl

/-- C3: a message flagged as personal trading data is never transmitted to a
group, supergroup or channel chat: `send_secure_notification` returns
`Ok(false)` and issues no `sendMessage` call, for every configuration,
message text and HTTP outcome. -/
theorem C3_trading_data_blocked_in_groups (cfg : TelegramConfig)
    (message : String) (ctx : ChatContext) (http : HttpOutcome)
    (hg : ctx.isGroupOrChannel = true) :
    sendSecureNotification cfg message ctx true http =
      { result := .ok false, sendMessageCalls := [] } := by
  simp [sendSecureNotification, hg]

/-- C3 (witness): a personal balance message to a supergroup is blocked. -/
theorem C3_witness :
    sendSecureNotification ⟨"token", false⟩ "your balance: 5 BTC"
        ⟨"-100123", .superGroup, none, false⟩ true .ok =
      { result := .ok false, sendMessageCalls := [] } :=
  C3_trading_data_blocked_in_groups ⟨"token", false⟩ "your balance: 5 BTC"
    ⟨"-100123", .superGroup, none, false⟩ .ok rfl

/-- C4 (counterexample): with a profile service wired but the user record
not persisted (the lookup finds nothing), the permission check denies even
`BasicCommands`, contradicting "Basic permissions return true including when
the user record is not persisted". -/
theorem C4_counterexample_unpersisted_user_denied_basic :
    checkUserPermission (some ⟨fun _ => none⟩) "42"
      CommandPermission.basicCommands = false :=
  rfl

/-- C4 (amended): Basic-class permissions are granted exactly to users whose
record is persisted: when the profile lookup succeeds, `BasicCommands` and
`BasicOpportunities` return true for every profile; when the lookup fails,
every permission — Basic included — is denied. -/
theorem C4_amended_basic_permissions (oracle : ProfileOracle) (userId : String)
    (profile : RbacProfile) (permission : CommandPermission) :
    (oracle.getUserByTelegramId ((parseI64 userId).getD 0) = some profile →
      checkUserPermission (some oracle) userId .basicCommands = true ∧
      checkUserPermission (some oracle) userId .basicOpportunities = true) ∧
    (oracle.getUserByTelegramId ((parseI64 userId).getD 0) = none →
      checkUserPermission (some oracle) userId permission = false) := by
  constructor
  · intro h
    constructor <;> simp [checkUserPermission, h]
  · intro h
    simp [checkUserPermission, h]

/-- C4 (witness): a persisted inactive basic user still gets BasicCommands;
an unpersisted user is denied PremiumFeatures. -/
theorem C4_amended_witness :
    checkUserPermission (some ⟨fun _ => some ⟨false, .basic⟩⟩) "42"
      CommandPermission.basicCommands = true ∧
    checkUserPermission (some ⟨fun _ => none⟩) "42"
      CommandPermission.premiumFeatures = false :=
  ⟨((C4_amended_basic_permissions ⟨fun _ => some ⟨false, .basic⟩⟩ "42"
      ⟨false, .basic⟩ .premiumFeatures).1 rfl).1,
   (C4_amended_basic_permissions ⟨fun _ => none⟩ "42" ⟨false, .basic⟩
      .premiumFeatures).2 rfl⟩

theorem run_ai_rate_limit_invariant (L : Nat) :
    ∀ (k c : Nat) (st : Option Nat), c ≤ L → st.getD 0 = c →
      (runAiRateLimit L k st).1 = min k (L - c) ∧
      (runAiRateLimit L k st).2.getD 0 = min (c + k) L := by
  intro k
  induction k with
  | zero =>
    intro c st hc hst
    simp only [runAiRateLimit]
    constructor
    · simp
    · rw [hst]; omega
  | succ k ih =>
    intro c st hc hst
    by_cases hover : L ≤ c
    · have hstep := ih c st hc hst
      simp only [runAiRateLimit, checkAiRateLimit, hst]
      rw [if_pos hover]
      constructor
      · rw [hstep.1]; omega
      · rw [hstep.2]; omega
    · have hstep := ih (c + 1) (some (c + 1)) (by omega) rfl
      simp only [runAiRateLimit, checkAiRateLimit, hst]
      rw [if_neg hover]
      constructor
      · simp only []
        rw [hstep.1]
        omega
      · simp only []
        rw [hstep.2]
        omega

/-- C5: starting from an absent counter (a fresh window), `k` sequential
`check_ai_rate_limit` calls with hourly limit `L` admit exactly `min k L` of
them, and the stored counter afterwards parses to `min k L` — in particular
it equals `L` after `k ≥ L` attempts, because a denied attempt does not
increment it. -/
theorem C5_rate_limit_exactly_min (L k : Nat) :
    (runAiRateLimit L k none).1 = min k L ∧
    (runAiRateLimit L k none).2.getD 0 = min k L := by
  have h := run_ai_rate_limit_invariant L k 0 none (by omega) rfl
  constructor
  · rw [h.1]; omega
  · rw [h.2]; omega

/-- C7 (counterexample): `AiIntelligenceConfig` has no development-mode
flag, and when the pipeline, cache and real-API tiers all fail the accessor
silently returns the symbol-seeded mock series (venue id `mock`) — so a
production request path yields mock data, contrary to the claim. -/
theorem C7_counterexample_mock_in_production :
    fetchExchangeDataForPositions
        [⟨"binance", "BTC-USDT", some (.error (.network "pipeline down")),
          .error (.notFound "cache miss"), .error (.network "api down")⟩]
        100000 =
      .ok [("binance", createMockPriceSeries "BTC-USDT" 100000)] ∧
    (createMockPriceSeries "BTC-USDT" 100000).exchangeId = "mock" :=
  ⟨rfl, rfl⟩

/-- C7 (amended): the synthetic fallback is unconditional — whenever the
pipeline tier is absent or fails, the cache tier fails and the real-API tier
fails, the accessor returns `create_mock_price_series` for the position's
symbol; no configuration flag gates this path. -/
theorem C7_amended_mock_fallback_unconditional (pos : PositionFetch) (now : Nat)
    (hp : pos.pipeline = none ∨ ∃ e, pos.pipeline = some (.error e))
    (hcache : ∃ e, pos.cache = .error e) (hreal : ∃ e, pos.realApi = .error e) :
    fetchSeriesForPosition pos now = createMockPriceSeries pos.symbol now := by
  obtain ⟨e2, hc⟩ := hcache
  obtain ⟨e3, hr⟩ := hreal
  rcases hp with hp | ⟨e1, hp⟩ <;> simp [fetchSeriesForPosition, hp, hc, hr]

/-- C7 (witness): the fallback at a concrete all-tiers-failed input. -/
theorem C7_amended_witness :
    fetchSeriesForPosition
        ⟨"binance", "BTC-USDT", some (.error (.network "pipeline down")),
          .error (.notFound "cache miss"), .error (.network "api down")⟩
        100000 =
      createMockPriceSeries "BTC-USDT" 100000 :=
  C7_amended_mock_fallback_unconditional _ 100000 (Or.inr ⟨_, rfl⟩) ⟨_, rfl⟩
    ⟨_, rfl⟩

theorem mkPricePoints_exchangeId (rows : List (Nat × FloatVal × FloatVal))
    (venue symbol : String) :
    ∀ pt ∈ mkPricePoints rows venue symbol, pt.exchangeId = venue := by
  intro pt hpt
  rcases List.mem_map.mp hpt with ⟨r, _, rfl⟩
  rfl

theorem mkPricePoints_timestamps (rows : List (Nat × FloatVal × FloatVal))
    (venue symbol : String) :
    (mkPricePoints rows venue symbol).map PricePoint.timestamp =
      rows.map (fun r => r.1 * 1000) := by
  simp [mkPricePoints, List.map_map]

theorem chain_lt_map_mul1000 {l : List Nat} (h : List.Chain' (· < ·) l) :
    List.Chain' (· < ·) (l.map (fun t => t * 1000)) := by
  rw [List.chain'_map]
  exact h.imp (fun a b hab => by omega)

theorem parseBinanceKlines_ok_inv {klines : List Json} {symbol : String}
    {nowMs : Nat} {s : PriceSeries}
    (h : parseBinanceKlines klines symbol nowMs = .ok s) :
    s.dataPoints = mkPricePoints (binanceValidRows klines) "binance" symbol ∧
      s.exchangeId = "binance" := by
  unfold parseBinanceKlines at h
  by_cases he : (binanceValidRows klines).isEmpty
  · rw [if_pos he] at h; cases h
  · rw [if_neg he] at h
    cases h
    exact ⟨rfl, rfl⟩

theorem parseBybitKlines_ok_inv {response : Json} {symbol : String}
    {nowMs : Nat} {s : PriceSeries}
    (h : parseBybitKlines response symbol nowMs = .ok s) :
    s.dataPoints = mkPricePoints (strKlineValidRows (bybitList response))
        "bybit" symbol ∧
      s.exchangeId = "bybit" := by
  unfold parseBybitKlines at h
  by_cases he : (strKlineValidRows (bybitList response)).isEmpty
  · rw [if_pos he] at h; cases h
  · rw [if_neg he] at h
    cases h
    exact ⟨rfl, rfl⟩

theorem parseOkxCandles_ok_inv {response : Json} {symbol : String}
    {nowMs : Nat} {s : PriceSeries}
    (h : parseOkxCandles response symbol nowMs = .ok s) :
    s.dataPoints = mkPricePoints (strKlineValidRows (okxData response))
        "okx" symbol ∧
      s.exchangeId = "okx" := by
  unfold parseOkxCandles at h
  by_cases he : (strKlineValidRows (okxData response)).isEmpty
  · rw [if_pos he] at h; cases h
  · rw [if_neg he] at h
    cases h
    exact ⟨rfl, rfl⟩

/-- C8 (counterexample): the parsers preserve the input order and never
sort: a Binance payload whose klines arrive with decreasing timestamps
parses successfully into a series whose `ts_ms` values are not strictly
increasing, contradicting the claimed invariant. -/
theorem C8_counterexample_unsorted_series :
    parseBinanceKlines
        [Json.arr [.num 2000000, .str "0", .str "0", .str "0", .str "1.0",
            .str "2.0"],
         Json.arr [.num 1000000, .str "0", .str "0", .str "0", .str "1.0",
            .str "2.0"]] "BTCUSDT" 99 =
      .ok { tradingPair := "BTCUSDT", exchangeId := "binance",
            timeframe := .oneHour,
            dataPoints :=
              [{ timestamp := 2000000, price := .lit "1.0",
                 volume := some (.lit "2.0"), exchangeId := "binance",
                 tradingPair := "BTCUSDT" },
               { timestamp := 1000000, price := .lit "1.0",
                 volume := some (.lit "2.0"), exchangeId := "binance",
                 tradingPair := "BTCUSDT" }],
            lastUpdated := 99 } ∧
    ¬ List.Chain' (· < ·) ([2000000, 1000000] : List Nat) :=
  ⟨rfl, by simp [List.chain'_cons]⟩

/-- C8 (amended): every point of a per-venue parser's series carries that
series' venue id, and the parser preserves the raw input order — the point
timestamps are exactly the successfully parsed raw timestamps (truncated to
seconds, re-scaled to ms), so they are strictly increasing precisely when
those raw second-granularity values are; the parser itself neither sorts
nor enforces strict increase. -/
theorem C8_amended_parser_points (klines : List Json) (response : Json)
    (symbol : String) (nowMs : Nat) (s : PriceSeries) :
    (parseBinanceKlines klines symbol nowMs = .ok s →
      (∀ pt ∈ s.dataPoints, pt.exchangeId = "binance") ∧
      s.dataPoints.map PricePoint.timestamp =
        ((binanceValidRows klines).map (fun r => r.1)).map (fun t => t * 1000) ∧
      (List.Chain' (· < ·) ((binanceValidRows klines).map (fun r => r.1)) →
        List.Chain' (· < ·) (s.dataPoints.map PricePoint.timestamp))) ∧
    (parseBybitKlines response symbol nowMs = .ok s →
      (∀ pt ∈ s.dataPoints, pt.exchangeId = "bybit") ∧
      s.dataPoints.map PricePoint.timestamp =
        ((strKlineValidRows (bybitList response)).map (fun r => r.1)).map
          (fun t => t * 1000) ∧
      (List.Chain' (· < ·)
          ((strKlineValidRows (bybitList response)).map (fun r => r.1)) →
        List.Chain' (· < ·) (s.dataPoints.map PricePoint.timestamp))) ∧
    (parseOkxCandles response symbol nowMs = .ok s →
      (∀ pt ∈ s.dataPoints, pt.exchangeId = "okx") ∧
      s.dataPoints.map PricePoint.timestamp =
        ((strKlineValidRows (okxData response)).map (fun r => r.1)).map
          (fun t => t * 1000) ∧
      (List.Chain' (· < ·)
          ((strKlineValidRows (okxData response)).map (fun r => r.1)) →
        List.Chain' (· < ·) (s.dataPoints.map PricePoint.timestamp))) := by
  refine ⟨?_, ?_, ?_⟩
  · intro h
    obtain ⟨hpts, _⟩ := parseBinanceKlines_ok_inv h
    have hts : s.dataPoints.map PricePoint.timestamp =
        ((binanceValidRows klines).map (fun r => r.1)).map (fun t => t * 1000) := by
      rw [hpts, mkPricePoints_timestamps, List.map_map]
      rfl
    refine ⟨?_, hts, ?_⟩
    · rw [hpts]; exact mkPricePoints_exchangeId _ _ _
    · intro hchain
      rw [hts]
      exact chain_lt_map_mul1000 hchain
  · intro h
    obtain ⟨hpts, _⟩ := parseBybitKlines_ok_inv h
    have hts : s.dataPoints.map PricePoint.timestamp =
        ((strKlineValidRows (bybitList response)).map (fun r => r.1)).map
          (fun t => t * 1000) := by
      rw [hpts, mkPricePoints_timestamps, List.map_map]
      rfl
    refine ⟨?_, hts, ?_⟩
    · rw [hpts]; exact mkPricePoints_exchangeId _ _ _
    · intro hchain
      rw [hts]
      exact chain_lt_map_mul1000 hchain
  · intro h
    obtain ⟨hpts, _⟩ := parseOkxCandles_ok_inv h
    have hts : s.dataPoints.map PricePoint.timestamp =
        ((strKlineValidRows (okxData response)).map (fun r => r.1)).map
          (fun t => t * 1000) := by
      rw [hpts, mkPricePoints_timestamps, List.map_map]
      rfl
    refine ⟨?_, hts, ?_⟩
    · rw [hpts]; exact mkPricePoints_exchangeId _ _ _
    · intro hchain
      rw [hts]
      exact chain_lt_map_mul1000 hchain

/-- C8 (witness): a strictly increasing Binance payload yields a strictly
increasing series stamped with the venue id. -/
theorem C8_amended_witness :
    (∀ pt ∈ c8WitnessSeries.dataPoints, pt.exchangeId = "binance") ∧
    c8WitnessSeries.dataPoints.map PricePoint.timestamp =
      ((binanceValidRows c8WitnessKlines).map (fun r => r.1)).map
        (fun t => t * 1000) ∧
    (List.Chain' (· < ·)
        ((binanceValidRows c8WitnessKlines).map (fun r => r.1)) →
      List.Chain' (· < ·)
        (c8WitnessSeries.dataPoints.map PricePoint.timestamp)) :=
  (C8_amended_parser_points c8WitnessKlines .null "BTCUSDT" 99
    c8WitnessSeries).1 rfl

/-- C9: a venue response in which zero rows parse successfully yields a
`Parse` error, and a successful result never carries an empty point list —
for all three per-venue parsers. -/
theorem C9_zero_rows_parse_error (klines : List Json) (response : Json)
    (symbol : String) (nowMs : Nat) :
    (∀ s, parseBinanceKlines klines symbol nowMs = .ok s → s.dataPoints ≠ []) ∧
    (binanceValidRows klines = [] →
      parseBinanceKlines klines symbol nowMs =
        .error (.parse "No valid Binance kline data")) ∧
    (∀ s, parseBybitKlines response symbol nowMs = .ok s → s.dataPoints ≠ []) ∧
    (strKlineValidRows (bybitList response) = [] →
      parseBybitKlines response symbol nowMs =
        .error (.parse "No valid Bybit kline data")) ∧
    (∀ s, parseOkxCandles response symbol nowMs = .ok s → s.dataPoints ≠ []) ∧
    (strKlineValidRows (okxData response) = [] →
      parseOkxCandles response symbol nowMs =
        .error (.parse "No valid OKX candle data")) := by
  refine ⟨?_, ?_, ?_, ?_, ?_, ?_⟩
  · intro s h
    unfold parseBinanceKlines at h
    by_cases he : (binanceValidRows klines).isEmpty
    · rw [if_pos he] at h; cases h
    · rw [if_neg he] at h
      cases h
      simp only [ne_eq]
      simp [mkPricePoints]
      simpa [List.isEmpty_iff] using he
  · intro h
    simp [parseBinanceKlines, h]
  · intro s h
    unfold parseBybitKlines at h
    by_cases he : (strKlineValidRows (bybitList response)).isEmpty
    · rw [if_pos he] at h; cases h
    · rw [if_neg he] at h
      cases h
      simp only [ne_eq]
      simp [mkPricePoints]
      simpa [List.isEmpty_iff] using he
  · intro h
    simp [parseBybitKlines, h]
  · intro s h
    unfold parseOkxCandles at h
    by_cases he : (strKlineValidRows (okxData response)).isEmpty
    · rw [if_pos he] at h; cases h
    · rw [if_neg he] at h
      cases h
      simp only [ne_eq]
      simp [mkPricePoints]
      simpa [List.isEmpty_iff] using he
  · intro h
    simp [parseOkxCandles, h]

/-- C9 (witness): concrete empty payloads fail with the venue's `Parse`
error. -/
theorem C9_witness :
    parseBinanceKlines [] "BTCUSDT" 5 =
      .error (.parse "No valid Binance kline data") ∧
    parseBybitKlines .null "BTCUSDT" 5 =
      .error (.parse "No valid Bybit kline data") ∧
    parseOkxCandles .null "BTCUSDT" 5 =
      .error (.parse "No valid OKX candle data") :=
  ⟨(C9_zero_rows_parse_error [] .null "BTCUSDT" 5).2.1 rfl,
   (C9_zero_rows_parse_error [] .null "BTCUSDT" 5).2.2.2.1 rfl,
   (C9_zero_rows_parse_error [] .null "BTCUSDT" 5).2.2.2.2.2 rfl⟩

/-- C10: `delete_api_key` removes every API key whose provider is the named
exchange and persists exactly one updated profile, whose key list retains
precisely the keys of other providers; when the user holds no key for that
exchange it returns a `NotFound` error and writes nothing. -/
theorem C10_delete_api_key (db : String → Option StoredUserProfile)
    (userId exchangeId : String) (now : Nat) (profile : StoredUserProfile)
    (hdb : db userId = some profile) :
    (profile.apiKeys.any (fun key => key.provider == .exchange exchangeId) =
        true →
      deleteApiKey db userId exchangeId now =
        { result := .ok (),
          writes := [(userId,
            { apiKeys := profile.apiKeys.filter (fun key =>
                match key.provider with
                | .exchange ex => ex ≠ exchangeId
                | _ => true), updatedAt := now })],
          cacheCleared := [(userId, exchangeId)] } ∧
      (∀ key ∈ profile.apiKeys.filter (fun key =>
          match key.provider with
          | .exchange ex => ex ≠ exchangeId
          | _ => true), key.provider ≠ ApiKeyProvider.exchange exchangeId) ∧
      (∀ key ∈ profile.apiKeys,
        key.provider ≠ ApiKeyProvider.exchange exchangeId →
          key ∈ profile.apiKeys.filter (fun key =>
            match key.provider with
            | .exchange ex => ex ≠ exchangeId
            | _ => true))) ∧
    (profile.apiKeys.any (fun key => key.provider == .exchange exchangeId) =
        false →
      deleteApiKey db userId exchangeId now =
        { result := .error (.notFound "API key not found for exchange"),
          writes := [], cacheCleared := [] }) := by
  have hpred : ∀ key : UserApiKey,
      (match key.provider with
        | ApiKeyProvider.exchange ex => decide (ex ≠ exchangeId)
        | _ => true) = true ↔
        key.provider ≠ ApiKeyProvider.exchange exchangeId := by
    intro key
    cases hk : key.provider <;> simp [hk]
  constructor
  · intro hany
    obtain ⟨key, hkmem, hkey⟩ := List.any_eq_true.mp hany
    have hkeyeq : key.provider = .exchange exchangeId := by
      simpa using hkey
    have hlt : profile.apiKeys.filter (fun key =>
        match key.provider with
        | .exchange ex => ex ≠ exchangeId
        | _ => true) ≠ profile.apiKeys := by
      intro heq
      have hall := List.filter_eq_self.mp heq key hkmem
      rw [hpred key] at hall
      exact hall hkeyeq
    have hlen : (profile.apiKeys.filter (fun key =>
        match key.provider with
        | .exchange ex => ex ≠ exchangeId
        | _ => true)).length ≠ profile.apiKeys.length := by
      intro heq
      exact hlt ((List.filter_sublist _).eq_of_length heq)
    refine ⟨?_, ?_, ?_⟩
    · simp only [deleteApiKey, hdb]
      rw [if_neg hlen]
    · intro k hk
      have := (List.mem_filter.mp hk).2
      rwa [hpred k] at this
    · intro k hk hne
      exact List.mem_filter.mpr ⟨hk, (hpred k).mpr hne⟩
  · intro hany
    have hall : ∀ key ∈ profile.apiKeys,
        (match key.provider with
          | ApiKeyProvider.exchange ex => decide (ex ≠ exchangeId)
          | _ => true) = true := by
      intro key hk
      rw [hpred key]
      intro hkeyeq
      have : profile.apiKeys.any
          (fun key => key.provider == .exchange exchangeId) = true :=
        List.any_eq_true.mpr ⟨key, hk, by simp [hkeyeq]⟩
      rw [hany] at this
      cases this
    have heq : profile.apiKeys.filter (fun key =>
        match key.provider with
        | .exchange ex => ex ≠ exchangeId
        | _ => true) = profile.apiKeys := List.filter_eq_self.mpr hall
    simp only [deleteApiKey, hdb]
    rw [if_pos (by rw [heq])]

/-- C10 (witness): deleting the Binance key of a user holding a Binance key
and an OpenAI key persists the profile with only the OpenAI key; the
deletion at a user without keys for the exchange is covered by the theorem's
second clause, exercised on the filtered outcome here. -/
theorem C10_delete_api_key_witness :
    deleteApiKey (fun _ => some ⟨[⟨.exchange "binance"⟩, ⟨.openAI⟩], 3⟩)
        "u1" "binance" 9 =
      { result := .ok (),
        writes := [("u1",
          { apiKeys := ([⟨.exchange "binance"⟩, ⟨.openAI⟩] :
              List UserApiKey).filter (fun key =>
                match key.provider with
                | .exchange ex => ex ≠ "binance"
                | _ => true), updatedAt := 9 })],
        cacheCleared := [("u1", "binance")] } :=
  ((C10_delete_api_key (fun _ => some ⟨[⟨.exchange "binance"⟩, ⟨.openAI⟩], 3⟩)
    "u1" "binance" 9 ⟨[⟨.exchange "binance"⟩, ⟨.openAI⟩], 3⟩ rfl).1
    (by decide)).1
